import Mathlib

/-!
Verification of the reduced single-scale "GCM" integrators from the L96_demo
notebooks (`presentation-model-setup.ipynb`).  The slow state is a vector of
rationals (`List ℚ`), machine floats being modelled exactly; the NaN rows of
the pre-allocated history array are modelled by `none`.
-/

/-- `np.polyval(p, x)`: Horner evaluation of a polynomial given by its
coefficient list, highest degree first. -/
def polyval (p : List ℚ) (x : ℚ) : ℚ :=
  p.foldl (fun acc c => acc * x + c) 0

/-- Modelled from the spec: `L96_eq1_xdot(X, F)` of `L96_model.py` is not in
the corpus; the spec gives the single-scale tendency
`dX_k/dt = -X_{k-1}(X_{k-2} - X_{k+1}) - X_k + F` with all indices taken
modulo `K` (the coupling sum is absent in the one-time-scale equation 1). -/
def L96_eq1_xdot (X : List ℚ) (F : ℚ) : List ℚ :=
  (List.range X.length).map fun k =>
    -(X.getD ((k + X.length - 1) % X.length) 0) *
        (X.getD ((k + X.length - 2) % X.length) 0 -
          X.getD ((k + 1) % X.length) 0) -
      X.getD k 0 + F

/-- One iteration of the `GCM` loop body:
`X = X + dt * (L96_eq1_xdot(X, F) - np.polyval(param, X))`, elementwise. -/
def gcmStep (F dt : ℚ) (param : List ℚ) (X : List ℚ) : List ℚ :=
  List.zipWith (fun x d => x + dt * d) X
    (List.zipWith (fun a b => a - b) (L96_eq1_xdot X F) (X.map (polyval param)))

/-- `np.abs(X).max()` for a nonempty vector (the fold starts at `0`, which is
a lower bound of every absolute value, so the value agrees with numpy's). -/
def maxAbs (X : List ℚ) : ℚ :=
  X.foldr (fun x m => max |x| m) 0

/-- The `for n in range(nt)` loop of `GCM`, carrying the running state `X`
and the absolute step index `n`; the third argument is the number of
iterations left.  On a break the remaining history rows keep their NaN
initialisation (`none`) and the remaining time slots keep their
`dt * np.arange(nt)` initialisation (`dt * index`). -/
def GCMgo (F dt : ℚ) (param : List ℚ) :
    List ℚ → ℕ → ℕ → List (Option (List ℚ)) × List ℚ
  | _, _, 0 => ([], [])
  | X, n, m + 1 =>
    let X' := gcmStep F dt param X
    if maxAbs X' > 1000 then
      (List.replicate (m + 1) none,
        (List.range (m + 1)).map fun i : ℕ => dt * ((n : ℚ) + (i : ℚ)))
    else
      let rest := GCMgo F dt param X' (n + 1) m
      (some X' :: rest.1, dt * ((n : ℚ) + 1) :: rest.2)

/-- `GCM(X0, F, dt, nt, param)` from `presentation-model-setup.ipynb`:
Euler-forward integration of the one-time-scale model with the coupling term
replaced by the polynomial parameterization, a divergence guard at `1e3`,
returning the (possibly NaN-padded) history and sample-time arrays. -/
def GCM (X0 : List ℚ) (F dt : ℚ) (nt : ℕ) (param : List ℚ) :
    List (Option (List ℚ)) × List ℚ :=
  GCMgo F dt param X0 0 nt

/-- Number of iterations of the `GCM` loop, started at state `X` with `m`
iterations left, that record their result before the divergence guard
breaks (equals `m` when the guard never trips). -/
def breakLen (F dt : ℚ) (param : List ℚ) : List ℚ → ℕ → ℕ
  | _, 0 => 0
  | X, m + 1 =>
    let X' := gcmStep F dt param X
    if maxAbs X' > 1000 then 0 else breakLen F dt param X' m + 1

/-- The claim's comparator for C6: the same stepping skeleton with the
coupling term literally zero, `X = X + dt * L96_eq1_xdot(X, F)`. -/
def gcmStepNoCoupling (F dt : ℚ) (X : List ℚ) : List ℚ :=
  List.zipWith (fun x d => x + dt * d) X (L96_eq1_xdot X F)

/-- The `GCM` loop with the coupling term equal to zero (C6 comparator). -/
def GCMzgo (F dt : ℚ) :
    List ℚ → ℕ → ℕ → List (Option (List ℚ)) × List ℚ
  | _, _, 0 => ([], [])
  | X, n, m + 1 =>
    let X' := gcmStepNoCoupling F dt X
    if maxAbs X' > 1000 then
      (List.replicate (m + 1) none,
        (List.range (m + 1)).map fun i : ℕ => dt * ((n : ℚ) + (i : ℚ)))
    else
      let rest := GCMzgo F dt X' (n + 1) m
      (some X' :: rest.1, dt * ((n : ℚ) + 1) :: rest.2)

/-- Zero-coupling run (C6 comparator, built per the spec sentence
"calling it with coupling = 0"). -/
def GCMzeroCoupling (X0 : List ℚ) (F dt : ℚ) (nt : ℕ) :
    List (Option (List ℚ)) × List ℚ :=
  GCMzgo F dt X0 0 nt

/-- One iteration of the `GCMs` state update:
`X = X + dt * (L96_eq1_xdot(X, F) - np.polyval(param, X) + stoch * ek)`. -/
def gcmsStep (F dt : ℚ) (param : List ℚ) (stoch : ℚ) (ek X : List ℚ) :
    List ℚ :=
  List.zipWith (fun x d => x + dt * d) X
    (List.zipWith (fun a b => a + b)
      (List.zipWith (fun a b => a - b) (L96_eq1_xdot X F)
        (X.map (polyval param)))
      (ek.map fun e => stoch * e))

/-- The `for` loop of `GCMs`, additionally carrying the red-noise state `ek`.
`sqrtTerm` stands for the irrational scalar `np.sqrt((1 - phi) * (1 + phi))`
and `randn n` for the vector drawn by `np.random.randn(X.size)` at step `n`;
both are explicit inputs of the embedding. -/
def GCMsgo (F dt : ℚ) (param : List ℚ) (stoch phi sqrtTerm : ℚ)
    (randn : ℕ → List ℚ) :
    List ℚ → List ℚ → ℕ → ℕ → List (Option (List ℚ)) × List ℚ
  | _, _, _, 0 => ([], [])
  | X, ek, n, m + 1 =>
    let ek' := List.zipWith (fun e r => phi * e + stoch * sqrtTerm * r) ek
      (randn n)
    let X' := gcmsStep F dt param stoch ek' X
    if maxAbs X' > 1000 then
      (List.replicate (m + 1) none,
        (List.range (m + 1)).map fun i : ℕ => dt * ((n : ℚ) + (i : ℚ)))
    else
      let rest := GCMsgo F dt param stoch phi sqrtTerm randn X' ek' (n + 1) m
      (some X' :: rest.1, dt * ((n : ℚ) + 1) :: rest.2)

/-- `GCMs(X0, F, dt, nt, param, stoch, phi)` from
`presentation-model-setup.ipynb`: the stochastic variant with an AR(1)
red-noise term `ek` started at `np.zeros(X.size)`. -/
def GCMs (X0 : List ℚ) (F dt : ℚ) (nt : ℕ) (param : List ℚ)
    (stoch phi sqrtTerm : ℚ) (randn : ℕ → List ℚ) :
    List (Option (List ℚ)) × List ℚ :=
  GCMsgo F dt param stoch phi sqrtTerm randn X0
    (List.replicate X0.length 0) 0 nt

/-- Requested step count at the notebook call sites: `int(T/dt)`,
which is `floor(T/dt)` for positive `T` and `dt`. -/
def ntOf (T dt : ℚ) : ℕ :=
  (⌊T / dt⌋).toNat

/-! ### Unfolding lemmas -/

lemma GCMgo_zero (F dt : ℚ) (param X : List ℚ) (n : ℕ) :
    GCMgo F dt param X n 0 = ([], []) := rfl

lemma GCMgo_succ (F dt : ℚ) (param : List ℚ) (X : List ℚ) (n m : ℕ) :
    GCMgo F dt param X n (m + 1) =
      if maxAbs (gcmStep F dt param X) > 1000 then
        (List.replicate (m + 1) none,
          (List.range (m + 1)).map fun i : ℕ => dt * ((n : ℚ) + (i : ℚ)))
      else
        (some (gcmStep F dt param X) ::
            (GCMgo F dt param (gcmStep F dt param X) (n + 1) m).1,
          dt * ((n : ℚ) + 1) ::
            (GCMgo F dt param (gcmStep F dt param X) (n + 1) m).2) := rfl

lemma breakLen_succ (F dt : ℚ) (param : List ℚ) (X : List ℚ) (m : ℕ) :
    breakLen F dt param X (m + 1) =
      if maxAbs (gcmStep F dt param X) > 1000 then 0
      else breakLen F dt param (gcmStep F dt param X) m + 1 := rfl

/-! ### Generic list helpers -/

lemma getD_replicate_none {α : Type} :
    ∀ (k i : ℕ), (List.replicate k (none : Option α)).getD i none = none := by
  intro k
  induction k with
  | zero => intro i; rfl
  | succ k ih =>
    intro i
    cases i with
    | zero => rfl
    | succ j => simp [List.replicate_succ, ih j]

lemma getD_range_map (f : ℕ → ℚ) (k i : ℕ) (d : ℚ) :
    ((List.range k).map f).getD i d = if i < k then f i else d := by
  by_cases h : i < k
  · rw [List.getD_eq_getElem _ _ (by simpa using h)]
    simp [h]
  · rw [List.getD_eq_default _ _ (by simpa using Nat.le_of_not_lt h)]
    simp [h]

lemma mem_le_maxAbs : ∀ (X : List ℚ) (x : ℚ), x ∈ X → |x| ≤ maxAbs X := by
  intro X
  induction X with
  | nil => intro x hx; cases hx
  | cons a l ih =>
    intro x hx
    rcases List.mem_cons.mp hx with h | h
    · subst h; exact le_max_left _ _
    · exact le_trans (ih x h) (le_max_right _ _)

/-! ### Structure of the break counter -/

lemma breakLen_le (F dt : ℚ) (param : List ℚ) :
    ∀ (m : ℕ) (X : List ℚ), breakLen F dt param X m ≤ m := by
  intro m
  induction m with
  | zero => intro X; exact Nat.le_refl 0
  | succ m ih =>
    intro X
    rw [breakLen_succ]
    split
    · exact Nat.zero_le _
    · exact Nat.succ_le_succ (ih _)

lemma breakLen_bound (F dt : ℚ) (param : List ℚ) :
    ∀ (m : ℕ) (X : List ℚ) (i : ℕ), i < breakLen F dt param X m →
      maxAbs ((gcmStep F dt param)^[i + 1] X) ≤ 1000 := by
  intro m
  induction m with
  | zero => intro X i h; exact absurd h (Nat.not_lt_zero _)
  | succ m ih =>
    intro X i h
    rw [breakLen_succ] at h
    by_cases hg : maxAbs (gcmStep F dt param X) > 1000
    · rw [if_pos hg] at h; exact absurd h (Nat.not_lt_zero _)
    · rw [if_neg hg] at h
      cases i with
      | zero => simpa using le_of_not_lt hg
      | succ j =>
        have hj : j < breakLen F dt param (gcmStep F dt param X) m :=
          Nat.lt_of_succ_lt_succ h
        have := ih (gcmStep F dt param X) j hj
        simpa [Function.iterate_succ_apply] using this

lemma breakLen_trip (F dt : ℚ) (param : List ℚ) :
    ∀ (m : ℕ) (X : List ℚ), breakLen F dt param X m < m →
      1000 < maxAbs ((gcmStep F dt param)^[breakLen F dt param X m + 1] X) := by
  intro m
  induction m with
  | zero => intro X h; exact absurd h (Nat.not_lt_zero _)
  | succ m ih =>
    intro X h
    by_cases hg : maxAbs (gcmStep F dt param X) > 1000
    · rw [breakLen_succ, if_pos hg]
      simpa using hg
    · rw [breakLen_succ, if_neg hg] at h ⊢
      have hlt : breakLen F dt param (gcmStep F dt param X) m < m :=
        Nat.lt_of_succ_lt_succ h
      have := ih (gcmStep F dt param X) hlt
      simpa [Function.iterate_succ_apply] using this

/-! ### Pointwise description of the returned arrays -/

lemma GCMgo_fst_length (F dt : ℚ) (param : List ℚ) :
    ∀ (m : ℕ) (X : List ℚ) (n : ℕ), (GCMgo F dt param X n m).1.length = m := by
  intro m
  induction m with
  | zero => intro X n; rfl
  | succ m ih =>
    intro X n
    rw [GCMgo_succ]
    split
    · simp
    · simp [ih]

lemma GCMgo_snd_length (F dt : ℚ) (param : List ℚ) :
    ∀ (m : ℕ) (X : List ℚ) (n : ℕ), (GCMgo F dt param X n m).2.length = m := by
  intro m
  induction m with
  | zero => intro X n; rfl
  | succ m ih =>
    intro X n
    rw [GCMgo_succ]
    split
    · simp
    · simp [ih]

lemma GCMgo_fst_getD (F dt : ℚ) (param : List ℚ) :
    ∀ (m : ℕ) (X : List ℚ) (n i : ℕ),
      (GCMgo F dt param X n m).1.getD i none =
        if i < breakLen F dt param X m then
          some ((gcmStep F dt param)^[i + 1] X)
        else none := by
  intro m
  induction m with
  | zero =>
    intro X n i
    simp [GCMgo_zero, breakLen]
  | succ m ih =>
    intro X n i
    by_cases hg : maxAbs (gcmStep F dt param X) > 1000
    · rw [GCMgo_succ, if_pos hg, breakLen_succ, if_pos hg]
      simp [getD_replicate_none]
    · rw [GCMgo_succ, if_neg hg, breakLen_succ, if_neg hg]
      cases i with
      | zero => simp
      | succ j =>
        have := ih (gcmStep F dt param X) (n + 1) j
        simp only [List.getD_cons_succ, this, Nat.succ_lt_succ_iff,
          Function.iterate_succ_apply]

lemma GCMgo_snd_getD (F dt : ℚ) (param : List ℚ) :
    ∀ (m : ℕ) (X : List ℚ) (n i : ℕ), i < m →
      (GCMgo F dt param X n m).2.getD i 0 =
        if i < breakLen F dt param X m then dt * ((n : ℚ) + (i : ℚ) + 1)
        else dt * ((n : ℚ) + (i : ℚ)) := by
  intro m
  induction m with
  | zero => intro X n i h; exact absurd h (Nat.not_lt_zero _)
  | succ m ih =>
    intro X n i h
    by_cases hg : maxAbs (gcmStep F dt param X) > 1000
    · rw [GCMgo_succ, if_pos hg, breakLen_succ, if_pos hg]
      simp only [getD_range_map, if_pos h, Nat.not_lt_zero, if_false]
    · rw [GCMgo_succ, if_neg hg, breakLen_succ, if_neg hg]
      cases i with
      | zero =>
        simp
      | succ j =>
        have hj : j < m := Nat.lt_of_succ_lt_succ h
        have := ih (gcmStep F dt param X) (n + 1) j hj
        rw [List.getD_cons_succ, this]
        by_cases hb : j < breakLen F dt param (gcmStep F dt param X) m
        · rw [if_pos hb, if_pos (Nat.succ_lt_succ hb)]
          push_cast
          ring
        · rw [if_neg hb, if_neg (fun hc => hb (Nat.lt_of_succ_lt_succ hc))]
          push_cast
          ring

lemma GCMgo_filterMap (F dt : ℚ) (param : List ℚ) :
    ∀ (m : ℕ) (X : List ℚ) (n : ℕ),
      (GCMgo F dt param X n m).1.filterMap id =
        (List.range (breakLen F dt param X m)).map
          fun i => (gcmStep F dt param)^[i + 1] X := by
  intro m
  induction m with
  | zero => intro X n; rfl
  | succ m ih =>
    intro X n
    by_cases hg : maxAbs (gcmStep F dt param X) > 1000
    · rw [GCMgo_succ, if_pos hg, breakLen_succ, if_pos hg]
      simp [List.filterMap_replicate]
    · rw [GCMgo_succ, if_neg hg, breakLen_succ, if_neg hg]
      have := ih (gcmStep F dt param X) (n + 1)
      simp only [List.filterMap_cons, id, this, List.range_succ_eq_map,
        List.map_cons, List.map_map]
      constructor

/-! ### Corollaries at the level of `GCM` -/

lemma GCM_fst_length (X0 : List ℚ) (F dt : ℚ) (nt : ℕ) (param : List ℚ) :
    (GCM X0 F dt nt param).1.length = nt :=
  GCMgo_fst_length F dt param nt X0 0

lemma GCM_snd_length (X0 : List ℚ) (F dt : ℚ) (nt : ℕ) (param : List ℚ) :
    (GCM X0 F dt nt param).2.length = nt :=
  GCMgo_snd_length F dt param nt X0 0

lemma GCM_fst_getD (X0 : List ℚ) (F dt : ℚ) (nt : ℕ) (param : List ℚ)
    (i : ℕ) :
    (GCM X0 F dt nt param).1.getD i none =
      if i < breakLen F dt param X0 nt then
        some ((gcmStep F dt param)^[i + 1] X0)
      else none :=
  GCMgo_fst_getD F dt param nt X0 0 i

lemma GCM_snd_getD (X0 : List ℚ) (F dt : ℚ) (nt : ℕ) (param : List ℚ)
    (i : ℕ) (h : i < nt) :
    (GCM X0 F dt nt param).2.getD i 0 =
      if i < breakLen F dt param X0 nt then dt * ((i : ℚ) + 1)
      else dt * (i : ℚ) := by
  have := GCMgo_snd_getD F dt param nt X0 0 i h
  simpa using this

lemma GCM_validLen (X0 : List ℚ) (F dt : ℚ) (nt : ℕ) (param : List ℚ) :
    ((GCM X0 F dt nt param).1.filterMap id).length =
      breakLen F dt param X0 nt := by
  rw [GCM, GCMgo_filterMap]
  simp

/-! ### Zero polynomial and zero stochastic amplitude -/

lemma polyval_zero_coeff (x : ℚ) : polyval [0] x = 0 := by
  simp [polyval]

lemma L96_eq1_xdot_length (X : List ℚ) (F : ℚ) :
    (L96_eq1_xdot X F).length = X.length := by
  simp [L96_eq1_xdot]

lemma gcmStep_length (F dt : ℚ) (param : List ℚ) (X : List ℚ) :
    (gcmStep F dt param X).length = X.length := by
  simp [gcmStep, L96_eq1_xdot_length]

lemma zipWith_sub_replicate_zero :
    ∀ (A : List ℚ) (k : ℕ), A.length ≤ k →
      List.zipWith (fun a b => a - b) A (List.replicate k (0 : ℚ)) = A := by
  intro A
  induction A with
  | nil => intro k h; simp
  | cons a A ih =>
    intro k h
    cases k with
    | zero => simp at h
    | succ k =>
      simp [List.replicate_succ, ih k (by simpa using h)]

lemma zipWith_add_replicate_zero :
    ∀ (A : List ℚ) (k : ℕ), A.length ≤ k →
      List.zipWith (fun a b => a + b) A (List.replicate k (0 : ℚ)) = A := by
  intro A
  induction A with
  | nil => intro k h; simp
  | cons a A ih =>
    intro k h
    cases k with
    | zero => simp at h
    | succ k =>
      simp [List.replicate_succ, ih k (by simpa using h)]

lemma gcmStep_zero_param (F dt : ℚ) (X : List ℚ) :
    gcmStep F dt [0] X = gcmStepNoCoupling F dt X := by
  unfold gcmStep gcmStepNoCoupling
  have hmap : X.map (polyval [0]) = List.replicate X.length (0 : ℚ) := by
    rw [show polyval [0] = fun _ : ℚ => (0 : ℚ) from funext polyval_zero_coeff]
    simp
  rw [hmap,
    zipWith_sub_replicate_zero _ _ (by rw [L96_eq1_xdot_length])]

lemma gcmsStep_stoch_zero (F dt : ℚ) (param : List ℚ) (ek X : List ℚ)
    (h : X.length ≤ ek.length) :
    gcmsStep F dt param 0 ek X = gcmStep F dt param X := by
  unfold gcmsStep gcmStep
  have hmap : ek.map (fun e => (0 : ℚ) * e) =
      List.replicate ek.length (0 : ℚ) := by
    simp
  rw [hmap, zipWith_add_replicate_zero]
  rw [List.length_zipWith, L96_eq1_xdot_length, List.length_map, min_self]
  exact h

lemma GCMzgo_succ (F dt : ℚ) (X : List ℚ) (n m : ℕ) :
    GCMzgo F dt X n (m + 1) =
      if maxAbs (gcmStepNoCoupling F dt X) > 1000 then
        (List.replicate (m + 1) none,
          (List.range (m + 1)).map fun i : ℕ => dt * ((n : ℚ) + (i : ℚ)))
      else
        (some (gcmStepNoCoupling F dt X) ::
            (GCMzgo F dt (gcmStepNoCoupling F dt X) (n + 1) m).1,
          dt * ((n : ℚ) + 1) ::
            (GCMzgo F dt (gcmStepNoCoupling F dt X) (n + 1) m).2) := rfl

lemma GCMsgo_succ (F dt : ℚ) (param : List ℚ) (stoch phi sqrtTerm : ℚ)
    (randn : ℕ → List ℚ) (X ek : List ℚ) (n m : ℕ) :
    GCMsgo F dt param stoch phi sqrtTerm randn X ek n (m + 1) =
      if maxAbs (gcmsStep F dt param stoch
          (List.zipWith (fun e r => phi * e + stoch * sqrtTerm * r) ek
            (randn n)) X) > 1000 then
        (List.replicate (m + 1) none,
          (List.range (m + 1)).map fun i : ℕ => dt * ((n : ℚ) + (i : ℚ)))
      else
        (some (gcmsStep F dt param stoch
            (List.zipWith (fun e r => phi * e + stoch * sqrtTerm * r) ek
              (randn n)) X) ::
            (GCMsgo F dt param stoch phi sqrtTerm randn
              (gcmsStep F dt param stoch
                (List.zipWith (fun e r => phi * e + stoch * sqrtTerm * r) ek
                  (randn n)) X)
              (List.zipWith (fun e r => phi * e + stoch * sqrtTerm * r) ek
                (randn n)) (n + 1) m).1,
          dt * ((n : ℚ) + 1) ::
            (GCMsgo F dt param stoch phi sqrtTerm randn
              (gcmsStep F dt param stoch
                (List.zipWith (fun e r => phi * e + stoch * sqrtTerm * r) ek
                  (randn n)) X)
              (List.zipWith (fun e r => phi * e + stoch * sqrtTerm * r) ek
                (randn n)) (n + 1) m).2) := rfl

/-! ### Claim theorems -/

/-- C1: each iteration of the reduced single-scale integrator `GCM` updates
the state by one Euler-forward step
`X' = X + dt * (L96_eq1_xdot(X, F) - polyval(param, X))`, the fast-variable
coupling sum being replaced by the polynomial parameterization evaluated
elementwise: the first recorded row is the Euler step from `X0`, and every
later recorded row is the Euler step from the preceding recorded row. -/
theorem GCM_iteration_is_euler_step (X0 : List ℚ) (F dt : ℚ) (nt : ℕ)
    (param : List ℚ) :
    (∀ X1, (GCM X0 F dt nt param).1.getD 0 none = some X1 →
      X1 = List.zipWith (fun x d => x + dt * d) X0
        (List.zipWith (fun a b => a - b) (L96_eq1_xdot X0 F)
          (X0.map (polyval param)))) ∧
    (∀ (n : ℕ) (Xn Xn1 : List ℚ),
      (GCM X0 F dt nt param).1.getD n none = some Xn →
      (GCM X0 F dt nt param).1.getD (n + 1) none = some Xn1 →
      Xn1 = List.zipWith (fun x d => x + dt * d) Xn
        (List.zipWith (fun a b => a - b) (L96_eq1_xdot Xn F)
          (Xn.map (polyval param)))) := by
  constructor
  · intro X1 h
    rw [GCM_fst_getD] at h
    by_cases hb : 0 < breakLen F dt param X0 nt
    · rw [if_pos hb] at h
      have h0 : (gcmStep F dt param)^[0 + 1] X0 = X1 := Option.some.inj h
      rw [← h0]
      rfl
    · rw [if_neg hb] at h
      exact Option.noConfusion h
  · intro n Xn Xn1 h1 h2
    rw [GCM_fst_getD] at h1 h2
    have hb2 : n + 1 < breakLen F dt param X0 nt := by
      by_contra hc
      rw [if_neg hc] at h2
      exact Option.noConfusion h2
    have hb1 : n < breakLen F dt param X0 nt := Nat.lt_of_succ_lt hb2
    rw [if_pos hb1] at h1
    rw [if_pos hb2] at h2
    have e1 : (gcmStep F dt param)^[n + 1] X0 = Xn := Option.some.inj h1
    have e2 : (gcmStep F dt param)^[n + 1 + 1] X0 = Xn1 := Option.some.inj h2
    rw [← e2, ← e1, Function.iterate_succ_apply']
    rfl

/-- Witness for C1: a two-step run at the stationary state `X = [0]`, where
both recorded rows exist and the Euler relation holds concretely. -/
theorem GCM_iteration_is_euler_step_witness :
    (GCM [(0 : ℚ)] 0 1 2 [0]).1.getD 0 none = some [0] ∧
    (GCM [(0 : ℚ)] 0 1 2 [0]).1.getD 1 none = some [0] ∧
    [(0 : ℚ)] = List.zipWith (fun x d => x + 1 * d) [(0 : ℚ)]
      (List.zipWith (fun a b => a - b) (L96_eq1_xdot [(0 : ℚ)] 0)
        ([(0 : ℚ)].map (polyval [0]))) :=
  ⟨by norm_num [GCM, GCMgo, gcmStep, L96_eq1_xdot, polyval, maxAbs, List.range_succ],
    by norm_num [GCM, GCMgo, gcmStep, L96_eq1_xdot, polyval, maxAbs, List.range_succ],
    (GCM_iteration_is_euler_step [(0 : ℚ)] 0 1 2 [0]).2 0 [0] [0]
      (by norm_num [GCM, GCMgo, gcmStep, L96_eq1_xdot, polyval, maxAbs, List.range_succ])
      (by norm_num [GCM, GCMgo, gcmStep, L96_eq1_xdot, polyval, maxAbs, List.range_succ])⟩

/-- C9: the returned history excludes the initial condition: a valid row `n`
(0-based) is the state after `n + 1` Euler steps and its sample time is
`dt * (n + 1)`, so the first sample sits at time `dt` and the `t = 0` state
never appears. -/
theorem GCM_history_excludes_initial (X0 : List ℚ) (F dt : ℚ) (nt : ℕ)
    (param : List ℚ) (n : ℕ)
    (h : ((GCM X0 F dt nt param).1.getD n none).isSome) :
    (GCM X0 F dt nt param).1.getD n none =
      some ((gcmStep F dt param)^[n + 1] X0) ∧
    (GCM X0 F dt nt param).2.getD n 0 = dt * ((n : ℚ) + 1) := by
  have hb : n < breakLen F dt param X0 nt := by
    by_contra hc
    rw [GCM_fst_getD, if_neg hc] at h
    simp at h
  have hn : n < nt := lt_of_lt_of_le hb (breakLen_le F dt param nt X0)
  constructor
  · rw [GCM_fst_getD, if_pos hb]
  · rw [GCM_snd_getD X0 F dt nt param n hn, if_pos hb]

/-- Witness for C9: in the two-step run at `X = [0]` with `dt = 1`, row 0 is
the state after one step and its time stamp is `1 = dt * 1`. -/
theorem GCM_history_excludes_initial_witness :
    (((GCM [(0 : ℚ)] 0 1 2 [0]).1.getD 0 none).isSome) ∧
    (GCM [(0 : ℚ)] 0 1 2 [0]).1.getD 0 none =
      some ((gcmStep 0 1 [0])^[0 + 1] [(0 : ℚ)]) ∧
    (GCM [(0 : ℚ)] 0 1 2 [0]).2.getD 0 0 = 1 * ((0 : ℚ) + 1) :=
  ⟨by norm_num [GCM, GCMgo, gcmStep, L96_eq1_xdot, polyval, maxAbs, List.range_succ],
    GCM_history_excludes_initial [(0 : ℚ)] 0 1 2 [0] 0
      (by norm_num [GCM, GCMgo, gcmStep, L96_eq1_xdot, polyval, maxAbs, List.range_succ])⟩

/-- C2: if after some step the maximum absolute value of the slow state
exceeds 1000, the run terminates early: `GCM` still returns full-length
`hist` and `time` arrays (no exception), some break index `k < nt` exists,
rows before `k` are recorded and every row from `k` on is the NaN sentinel
(`none`). -/
theorem GCM_divergence_guard_truncates (X0 : List ℚ) (F dt : ℚ) (nt : ℕ)
    (param : List ℚ)
    (h : ∃ n < nt, 1000 < maxAbs ((gcmStep F dt param)^[n + 1] X0)) :
    ∃ k < nt,
      (GCM X0 F dt nt param).1.length = nt ∧
      (GCM X0 F dt nt param).2.length = nt ∧
      (∀ m < k, ((GCM X0 F dt nt param).1.getD m none).isSome) ∧
      (∀ m, k ≤ m → (GCM X0 F dt nt param).1.getD m none = none) := by
  obtain ⟨n, hn, htrip⟩ := h
  refine ⟨breakLen F dt param X0 nt, ?_, GCM_fst_length X0 F dt nt param,
    GCM_snd_length X0 F dt nt param, ?_, ?_⟩
  · by_contra hc
    have heq : breakLen F dt param X0 nt = nt :=
      le_antisymm (breakLen_le F dt param nt X0) (Nat.le_of_not_lt hc)
    have hn2 : n < breakLen F dt param X0 nt := by rw [heq]; exact hn
    have := breakLen_bound F dt param nt X0 n hn2
    exact absurd htrip (not_lt.mpr this)
  · intro m hm
    rw [GCM_fst_getD, if_pos hm]
    rfl
  · intro m hm
    rw [GCM_fst_getD, if_neg (Nat.not_lt.mpr hm)]

/-- Witness for C2: starting at `X = [2000]` with `dt = 1/4` the first Euler
step lands at `[1500]`, which trips the guard; the single history row is the
NaN sentinel. -/
theorem GCM_divergence_guard_truncates_witness :
    (∃ n < 1, 1000 < maxAbs ((gcmStep 0 (1/4) [0])^[n + 1] [(2000 : ℚ)])) ∧
    (∃ k < 1,
      (GCM [(2000 : ℚ)] 0 (1/4) 1 [0]).1.length = 1 ∧
      (GCM [(2000 : ℚ)] 0 (1/4) 1 [0]).2.length = 1 ∧
      (∀ m < k, ((GCM [(2000 : ℚ)] 0 (1/4) 1 [0]).1.getD m none).isSome) ∧
      (∀ m, k ≤ m → (GCM [(2000 : ℚ)] 0 (1/4) 1 [0]).1.getD m none = none)) :=
  ⟨⟨0, Nat.zero_lt_one,
      by norm_num [gcmStep, L96_eq1_xdot, polyval, maxAbs, List.range_succ]⟩,
    GCM_divergence_guard_truncates [(2000 : ℚ)] 0 (1/4) 1 [0]
      ⟨0, Nat.zero_lt_one,
        by norm_num [gcmStep, L96_eq1_xdot, polyval, maxAbs, List.range_succ]⟩⟩

/-- C3: in a run where the divergence guard trips (some history row is the
NaN sentinel), the valid trajectory is shorter than the requested `nt` rows
and no value of any recorded row exceeds 1000 in absolute value. -/
theorem GCM_trip_prefix_bounded (X0 : List ℚ) (F dt : ℚ) (nt : ℕ)
    (param : List ℚ)
    (h : ∃ n < nt, (GCM X0 F dt nt param).1.getD n none = none) :
    ((GCM X0 F dt nt param).1.filterMap id).length < nt ∧
    ∀ Xm ∈ (GCM X0 F dt nt param).1.filterMap id, ∀ x ∈ Xm, |x| ≤ 1000 := by
  obtain ⟨n, hn, hnone⟩ := h
  have hbl : breakLen F dt param X0 nt ≤ n := by
    by_contra hc
    rw [GCM_fst_getD, if_pos (Nat.lt_of_not_le hc)] at hnone
    exact Option.noConfusion hnone
  constructor
  · rw [GCM_validLen]
    exact lt_of_le_of_lt hbl hn
  · intro Xm hXm x hx
    rw [GCM, GCMgo_filterMap] at hXm
    obtain ⟨i, hi, hEq⟩ := List.mem_map.mp hXm
    have hib : i < breakLen F dt param X0 nt := List.mem_range.mp hi
    have hbnd := breakLen_bound F dt param nt X0 i hib
    exact le_trans (mem_le_maxAbs _ x (hEq ▸ hx)) hbnd

/-- Witness for C3: the guard trips immediately from `X = [2000]` with
`dt = 1/4` over two requested steps, so the valid trajectory is empty
(length 0 < 2) and the bound holds vacuously. -/
theorem GCM_trip_prefix_bounded_witness :
    (∃ n < 2, (GCM [(2000 : ℚ)] 0 (1/4) 2 [0]).1.getD n none = none) ∧
    (((GCM [(2000 : ℚ)] 0 (1/4) 2 [0]).1.filterMap id).length < 2 ∧
      ∀ Xm ∈ (GCM [(2000 : ℚ)] 0 (1/4) 2 [0]).1.filterMap id,
        ∀ x ∈ Xm, |x| ≤ 1000) :=
  ⟨⟨0, Nat.zero_lt_two,
      by norm_num [GCM, GCMgo, gcmStep, L96_eq1_xdot, polyval, maxAbs, List.range_succ]⟩,
    GCM_trip_prefix_bounded [(2000 : ℚ)] 0 (1/4) 2 [0]
      ⟨0, Nat.zero_lt_two,
        by norm_num [GCM, GCMgo, gcmStep, L96_eq1_xdot, polyval, maxAbs, List.range_succ]⟩⟩

/-- C4: for valid parameters (`T > 0`, `dt > 0`, `nt = floor(T/dt)` as at the
call sites), the history has exactly `nt` rows; the recorded (non-NaN) rows
number at most `nt`, and fewer only when the divergence guard tripped. -/
theorem GCM_trajectory_length (X0 : List ℚ) (F T dt : ℚ) (param : List ℚ)
    (_hT : 0 < T) (_hdt : 0 < dt) :
    (GCM X0 F dt (ntOf T dt) param).1.length = ntOf T dt ∧
    ((GCM X0 F dt (ntOf T dt) param).1.filterMap id).length ≤ ntOf T dt ∧
    (((GCM X0 F dt (ntOf T dt) param).1.filterMap id).length < ntOf T dt →
      1000 < maxAbs ((gcmStep F dt param)^[((GCM X0 F dt (ntOf T dt)
        param).1.filterMap id).length + 1] X0)) := by
  refine ⟨GCM_fst_length X0 F dt (ntOf T dt) param, ?_, ?_⟩
  · rw [GCM_validLen]
    exact breakLen_le F dt param (ntOf T dt) X0
  · intro hlt
    rw [GCM_validLen] at hlt ⊢
    exact breakLen_trip F dt param (ntOf T dt) X0 hlt

/-- Witness for C4: `T = 1`, `dt = 1/2` give `nt = 2`; the run from `[0]`
records both rows, so the valid length equals `nt` and the truncation clause
is vacuous. -/
theorem GCM_trajectory_length_witness :
    ((0 : ℚ) < 1 ∧ (0 : ℚ) < 1/2) ∧
    ((GCM [(0 : ℚ)] 0 (1/2) (ntOf 1 (1/2)) [0]).1.length = ntOf 1 (1/2) ∧
      ((GCM [(0 : ℚ)] 0 (1/2) (ntOf 1 (1/2)) [0]).1.filterMap id).length ≤
        ntOf 1 (1/2) ∧
      (((GCM [(0 : ℚ)] 0 (1/2) (ntOf 1 (1/2)) [0]).1.filterMap id).length <
          ntOf 1 (1/2) →
        1000 < maxAbs ((gcmStep 0 (1/2) [0])^[((GCM [(0 : ℚ)] 0 (1/2)
          (ntOf 1 (1/2)) [0]).1.filterMap id).length + 1] [(0 : ℚ)]))) :=
  ⟨⟨one_pos, by norm_num⟩,
    GCM_trajectory_length [(0 : ℚ)] 0 1 (1/2) [0] one_pos (by norm_num)⟩

/-- C5: the integrator is deterministic: two `GCM` calls with equal initial
state, forcing, step size, step count and parameterization return equal
`(hist, time)` pairs. -/
theorem GCM_deterministic (X0 X0' : List ℚ) (F F' dt dt' : ℚ)
    (nt nt' : ℕ) (param param' : List ℚ)
    (h1 : X0 = X0') (h2 : F = F') (h3 : dt = dt') (h4 : nt = nt')
    (h5 : param = param') :
    GCM X0 F dt nt param = GCM X0' F' dt' nt' param' := by
  subst h1 h2 h3 h4 h5
  rfl

/-- Witness for C5 at a concrete argument tuple. -/
theorem GCM_deterministic_witness :
    [(7 : ℚ)] = [(7 : ℚ)] ∧ (18 : ℚ) = 18 ∧ (1/100 : ℚ) = 1/100 ∧
    (3 : ℕ) = 3 ∧ [(0 : ℚ)] = [(0 : ℚ)] ∧
    GCM [(7 : ℚ)] 18 (1/100) 3 [0] = GCM [(7 : ℚ)] 18 (1/100) 3 [0] :=
  ⟨rfl, rfl, rfl, rfl, rfl,
    GCM_deterministic [(7 : ℚ)] [(7 : ℚ)] 18 18 (1/100) (1/100) 3 3 [0] [0]
      rfl rfl rfl rfl rfl⟩

/-- C6: running `GCM` with the zero-coefficient parameterization
`param = [0]` yields exactly the same `(hist, time)` pair as the same
skeleton with the coupling term equal to zero: the `polyval` term
contributes exactly 0 at every step. -/
theorem GCM_zero_param_eq_zero_coupling (X0 : List ℚ) (F dt : ℚ)
    (nt : ℕ) :
    GCM X0 F dt nt [0] = GCMzeroCoupling X0 F dt nt := by
  unfold GCM GCMzeroCoupling
  suffices h : ∀ (m : ℕ) (X : List ℚ) (n : ℕ),
      GCMgo F dt [0] X n m = GCMzgo F dt X n m from h nt X0 0
  intro m
  induction m with
  | zero => intro X n; rfl
  | succ m ih =>
    intro X n
    rw [GCMgo_succ, GCMzgo_succ, gcmStep_zero_param]
    split
    · rfl
    · rw [ih]

/-- C8 counterexample: the claim asserts invalid parameter combinations
(`K < 4`, non-positive `dt`, ...) fail fast before any stepping; but with
`K = 1 < 4` and `dt = -1 ≤ 0`, `GCM` steps anyway and returns a trajectory
whose first row is the recorded state `[2]`. -/
theorem GCM_invalid_params_counterexample :
    ((-1 : ℚ) ≤ 0) ∧ List.length [(1 : ℚ)] < 4 ∧
      (GCM [(1 : ℚ)] 0 (-1) 1 [0]).1.getD 0 none = some [2] := by
  refine ⟨by norm_num, by norm_num, ?_⟩
  norm_num [GCM, GCMgo, gcmStep, L96_eq1_xdot, polyval, maxAbs,
    List.range_succ]

/-- C8 amended: `GCM` performs no parameter validation at all: for every
argument combination, invalid ones included, it runs the stepping loop and
returns full-length `hist` and `time` arrays (subject only to the
divergence guard), raising no configuration error. -/
theorem GCM_no_parameter_validation (X0 : List ℚ) (F dt : ℚ) (nt : ℕ)
    (param : List ℚ) :
    (GCM X0 F dt nt param).1.length = nt ∧
    (GCM X0 F dt nt param).2.length = nt :=
  ⟨GCM_fst_length X0 F dt nt param, GCM_snd_length X0 F dt nt param⟩

/-- C10: with `stoch = 0` the stochastic variant `GCMs` returns exactly the
same `(hist, time)` pair as `GCM` with the same arguments, for every noise
stream of the right shape (the red-noise term is multiplied by 0 in the
state update, so it contributes nothing to any step). -/
theorem GCMs_stoch_zero_eq_GCM (X0 : List ℚ) (F dt : ℚ) (nt : ℕ)
    (param : List ℚ) (phi sqrtTerm : ℚ) (randn : ℕ → List ℚ)
    (hr : ∀ n, (randn n).length = X0.length) :
    GCMs X0 F dt nt param 0 phi sqrtTerm randn = GCM X0 F dt nt param := by
  unfold GCMs GCM
  suffices h : ∀ (m : ℕ) (X ek : List ℚ) (n : ℕ),
      X.length = X0.length → ek.length = X0.length →
      GCMsgo F dt param 0 phi sqrtTerm randn X ek n m =
        GCMgo F dt param X n m from
    h nt X0 (List.replicate X0.length 0) 0 rfl (by simp)
  intro m
  induction m with
  | zero => intro X ek n hX hek; rfl
  | succ m ih =>
    intro X ek n hX hek
    have hek2 : (List.zipWith (fun e r => phi * e + 0 * sqrtTerm * r) ek
        (randn n)).length = X0.length := by
      rw [List.length_zipWith, hek, hr n, min_self]
    have hstep : gcmsStep F dt param 0
        (List.zipWith (fun e r => phi * e + 0 * sqrtTerm * r) ek (randn n))
        X = gcmStep F dt param X :=
      gcmsStep_stoch_zero F dt param _ X (by rw [hX, hek2])
    rw [GCMsgo_succ, GCMgo_succ, hstep]
    split
    · rfl
    · rw [ih (gcmStep F dt param X) _ (n + 1)
        (by rw [gcmStep_length, hX]) hek2]

/-- Witness for C10: a concrete two-step run with a constant unit-length
noise stream, `phi = 1`, `sqrtTerm = 5`. -/
theorem GCMs_stoch_zero_eq_GCM_witness :
    (∀ n : ℕ, ((fun _ : ℕ => [(3 : ℚ)]) n).length =
      List.length [(0 : ℚ)]) ∧
    GCMs [(0 : ℚ)] 0 1 2 [0] 0 1 5 (fun _ => [(3 : ℚ)]) =
      GCM [(0 : ℚ)] 0 1 2 [0] :=
  ⟨fun _ => rfl,
    GCMs_stoch_zero_eq_GCM [(0 : ℚ)] 0 1 2 [0] 1 5 (fun _ => [(3 : ℚ)])
      (fun _ => rfl)⟩
